import Mathlib

/-!
# CS350 timing testbed: timestamp arithmetic, wait strategies, FIFO server, clock utility

A shallow embedding of `timelib.c`, `server.c` and `clock.c`.

* `long` / `time_t` values are integers in `[-2 ^ 63, 2 ^ 63)`. Signed overflow is
  undefined behaviour in C; the arithmetic of `timespec_add` is modelled with the
  two's complement wrap-around that the compiled program performs (`wrap_long`).
* `uint64_t` values are naturals reduced modulo `2 ^ 64` where the code computes.
* The operating system is an oracle: the `k`-th call of `clock_gettime` returns
  `env.clock k`, the `k`-th cycle-counter sample returns `env.tsc k`, and the
  socket delivers a list of complete requests followed by end-of-stream.
* Loops that may spin forever take a fuel argument; `none` means the loop was still
  running when the fuel ran out.
-/

set_option maxRecDepth 100000

namespace CS350

/-! ## timelib.c -/

/-- The C `struct timespec`. -/
structure Timespec where
  tv_sec : Int
  tv_nsec : Int
deriving DecidableEq, Repr

/-- Modelled from the spec: the constant `NANO_IN_SEC` of `timelib.h` (the header is
not among the sources); one second is 1e9 nanoseconds. -/
def NANO_IN_SEC : Int := 1000000000

/-- The largest value of a 64-bit `long` / `time_t`. -/
def LONG_MAX : Int := 9223372036854775807

/-- The result of a `long` operation whose exact value is `x`: reduction into
`[-2 ^ 63, 2 ^ 63)` modulo `2 ^ 64`. -/
def wrap_long (x : Int) : Int :=
  (x + 9223372036854775808) % 18446744073709551616 - 9223372036854775808

/-- Addresses of `struct timespec` objects. -/
abbrev Addr := Nat

/-- Memory holding `struct timespec` objects, so that the pointer arguments of
`timespec_add` can be told apart or alias. -/
abbrev Mem := Addr → Timespec

/-- Store `v` at address `p`. -/
def Mem.set (m : Mem) (p : Addr) (v : Timespec) : Mem :=
  fun q => if q = p then v else m q

/-- Memory with `x` at address 0 and `y` everywhere else (two distinct objects). -/
def Mem.two (x y : Timespec) : Mem :=
  fun q => if q = 0 then x else y

/-- The function `timespec_add (struct timespec * a, struct timespec * b)` of
timelib.c, lines 101-112; `/` and `%` of C truncate toward zero, and every `long`
addition wraps. -/
def timespec_add (a b : Addr) (m : Mem) : Mem :=
  let addl_seconds := (m b).tv_sec
  let m1 := m.set a { m a with tv_nsec := wrap_long ((m a).tv_nsec + (m b).tv_nsec) }
  if (m1 a).tv_nsec > NANO_IN_SEC then
    let addl_seconds2 := wrap_long (addl_seconds + (m1 a).tv_nsec.tdiv NANO_IN_SEC)
    let m2 := m1.set a { m1 a with tv_nsec := (m1 a).tv_nsec.tmod NANO_IN_SEC }
    m2.set a { m2 a with tv_sec := wrap_long ((m2 a).tv_sec + addl_seconds2) }
  else
    m1.set a { m1 a with tv_sec := wrap_long ((m1 a).tv_sec + addl_seconds) }

/-- The function `timespec_cmp` of timelib.c, lines 117-127 (it only reads through
its two pointers). -/
def timespec_cmp (a b : Timespec) : Int :=
  if a.tv_sec = b.tv_sec ∧ a.tv_nsec = b.tv_nsec then 0
  else if a.tv_sec > b.tv_sec ∨ (a.tv_sec = b.tv_sec ∧ a.tv_nsec > b.tv_nsec) then 1
  else -1

/-- A normalized timespec: non-negative seconds and nanoseconds in `[0, 1e9)`. -/
def Timespec.normalized (t : Timespec) : Prop :=
  0 ≤ t.tv_sec ∧ 0 ≤ t.tv_nsec ∧ t.tv_nsec < NANO_IN_SEC

instance (t : Timespec) : Decidable t.normalized := by
  unfold Timespec.normalized; infer_instance

/-- The exact number of nanoseconds a timespec stands for. -/
def Timespec.toNs (t : Timespec) : Int :=
  t.tv_sec * NANO_IN_SEC + t.tv_nsec

/-- The value `*a` after `timespec_add (&a, &b)` on two distinct objects. -/
def timespec_sum (a b : Timespec) : Timespec :=
  timespec_add 0 1 (Mem.two a b) 0

/-- The seconds of the sum fit into a `long`: `a.tv_sec + b.tv_sec`, plus the one second
that `timespec_add` carries when the nanoseconds exceed `NANO_IN_SEC`, is at most
`LONG_MAX`. -/
def add_fits (a b : Timespec) : Prop :=
  a.tv_sec + b.tv_sec + (if a.tv_nsec + b.tv_nsec > NANO_IN_SEC then 1 else 0) ≤ LONG_MAX

instance (a b : Timespec) : Decidable (add_fits a b) := by
  unfold add_fits; infer_instance

/-! ## IEEE 754 binary64 arithmetic, as far as the code uses it

Every `double` the programs compute is `tv_sec + tv_nsec * 1e-9` or a difference of
two such values. The literal `1e-9` is the double `4835703278458517 * 2 ^ (-82)`, so
all these values are integer multiples of `2 ^ (-82)`. A `Dbl` is that integer.
Each operation is the exact operation followed by rounding to 53 significant bits,
ties to even (the default rounding mode, no fused multiply-add, no extended
precision). Neither overflow nor subnormal numbers can occur for 64-bit operands. -/

/-- A double, in units of `2 ^ (-82)`. -/
abbrev Dbl := Int

/-- How many low bits of `n` do not fit into a 53-bit significand. -/
def excess : Nat → Nat → Nat
  | 0, _ => 0
  | fuel + 1, n => if n < 2 ^ 53 then 0 else excess fuel (n / 2) + 1

/-- Round a natural number to 53 significant bits, ties to even. -/
def roundNat53 (n : Nat) : Nat :=
  let e := excess n n
  let q := n / 2 ^ e
  let r := n % 2 ^ e
  if 2 * r > 2 ^ e ∨ (2 * r = 2 ^ e ∧ q % 2 = 1) then (q + 1) * 2 ^ e else q * 2 ^ e

/-- Round an integer to 53 significant bits, ties to even (rounding is symmetric). -/
def round53 (x : Int) : Int :=
  if x < 0 then -((roundNat53 x.natAbs : Nat) : Int) else ((roundNat53 x.natAbs : Nat) : Int)

/-- The conversion of a `long` to `double`. -/
def long_to_double (n : Int) : Dbl := round53 n * 2 ^ 82

/-- The product `n * 1e-9` of a `long` (converted to double) and the literal `1e-9`. -/
def mul_1e_9 (n : Int) : Dbl := round53 (round53 n * 4835703278458517)

/-- Double addition. -/
def dadd (x y : Dbl) : Dbl := round53 (x + y)

/-- Double subtraction. -/
def dsub (x y : Dbl) : Dbl := round53 (x - y)

/-- The expression `t.tv_sec + t.tv_nsec * 1e-9` of server.c. -/
def toSeconds (t : Timespec) : Dbl :=
  dadd (long_to_double t.tv_sec) (mul_1e_9 t.tv_nsec)

/-- Decimal digits of `n`, zero-padded on the left to at least `width` digits. -/
def padDigits (width n : Nat) : String :=
  let s := toString n
  String.mk (List.replicate (width - s.length) '0') ++ s

/-- The conversion `%.6f` of printf applied to a double: the exact value rounded
to six decimals, ties to even. -/
def fmt6 (v : Dbl) : String :=
  let scaled := v.natAbs * 10 ^ 6
  let q := scaled / 2 ^ 82
  let r := scaled % 2 ^ 82
  let u := if 2 * r > 2 ^ 82 ∨ (2 * r = 2 ^ 82 ∧ q % 2 = 1) then q + 1 else q
  (if v < 0 then "-" else "") ++ toString (u / 10 ^ 6) ++ "." ++ padDigits 6 (u % 10 ^ 6)

/-! ## The environment -/

/-- What the operating system and the hardware answer. -/
structure Env where
  /-- The reading returned by the `k`-th call of `clock_gettime (CLOCK_MONOTONIC, _)`. -/
  clock : Nat → Timespec
  /-- The cycle counter at the `k`-th sample. -/
  tsc : Nat → Nat
  /-- Whether `recv` at end of stream reports an error (`-1`) rather than an orderly
  close (`0`). -/
  eofErr : Bool

/-- One request on the wire. -/
structure Request where
  id : Nat
  sent : Timespec
  len : Timespec
deriving DecidableEq, Repr

/-- The arguments handed to the `printf` of `handle_request`. -/
structure TimingRecord where
  id : Int
  sentsec : Dbl
  lensec : Dbl
  recsec : Dbl
  compsec : Dbl
deriving DecidableEq, Repr

/-- The line `printf ("R%d:%.6f,%.6f,%.6f,%.6f\n", ...)` writes. -/
def TimingRecord.line (r : TimingRecord) : String :=
  "R" ++ toString r.id ++ ":" ++ fmt6 r.sentsec ++ "," ++ fmt6 r.lensec ++ ","
    ++ fmt6 r.recsec ++ "," ++ fmt6 r.compsec ++ "\n"

/-- A line on standard output. The value printed by `ClockSpeed: %.2f` is a quotient
of doubles; the line keeps its operands. -/
inductive OutLine where
  | record (r : TimingRecord)
  | waitMethod (name : String)
  | waitTime (sec nsec : Int)
  | clocksElapsed (n : Nat)
  | clockSpeed (elapsed : Nat) (sec nsec : Int)
deriving DecidableEq, Repr

/-- The state of a process and of what it has done to the outside world. -/
structure World where
  /-- Number of `clock_gettime` calls made so far. -/
  clockCalls : Nat
  /-- Number of cycle-counter samples taken so far. -/
  tscCalls : Nat
  /-- Requests the peer has sent that are not read yet; after them the stream ends. -/
  stream : List Request
  /-- Number of `recv` calls made so far. -/
  recvCalls : Nat
  /-- Values written to the socket by `send`, oldest first. -/
  responses : List Nat
  /-- Lines on standard output, oldest first. -/
  stdout : List OutLine
  /-- Lines on standard error, oldest first. -/
  stderr : List String
  /-- Arguments of the `nanosleep` calls, oldest first. -/
  sleeps : List Timespec
  /-- Descriptors passed to `close`, oldest first. -/
  closed : List Int
deriving DecidableEq, Repr

/-- A fresh process talking to a peer that sends `reqs` and then closes. -/
def World.init (reqs : List Request) : World :=
  { clockCalls := 0, tscCalls := 0, stream := reqs, recvCalls := 0, responses := [],
    stdout := [], stderr := [], sleeps := [], closed := [] }

/-- The call `clock_gettime (CLOCK_MONOTONIC, &t)`. -/
def clock_gettime (env : Env) (w : World) : Timespec × World :=
  (env.clock w.clockCalls, { w with clockCalls := w.clockCalls + 1 })

/-- Modelled from the spec: the macro `get_clocks` of `timelib.h` (the header is not
among the sources), a single read of the 64-bit hardware cycle counter. -/
def get_clocks (env : Env) (w : World) : Nat × World :=
  (env.tsc w.tscCalls % 2 ^ 64, { w with tscCalls := w.tscCalls + 1 })

/-- Subtraction of two `uint64_t` values. -/
def sub_u64 (x y : Nat) : Nat := (x + 2 ^ 64 - y % 2 ^ 64) % 2 ^ 64

/-! ## timelib.c: the wait strategies -/

/-- The function `get_elapsed_sleep` of timelib.c, lines 28-39. -/
def get_elapsed_sleep (env : Env) (sec nsec : Int) (w : World) : Nat × World :=
  let (start, w1) := get_clocks env w
  let time : Timespec := { tv_sec := sec, tv_nsec := nsec }
  let w2 := { w1 with sleeps := w1.sleeps ++ [time] }
  let (end_, w3) := get_clocks env w2
  (sub_u64 end_ start, w3)

/-- The loop `do { clock_gettime (CLOCK_MONOTONIC, &curr); }
while (timespec_cmp (&curr, &target) < 0)` of `get_elapsed_busywait`; it returns the
last reading `curr`. -/
def poll_until (env : Env) (target : Timespec) : Nat → World → Option (Timespec × World)
  | 0, _ => none
  | fuel + 1, w =>
    let (curr, w1) := clock_gettime env w
    if timespec_cmp curr target < 0 then poll_until env target fuel w1 else some (curr, w1)

/-- The target `get_elapsed_busywait` computes: `target = begin; timespec_add
(&target, &delay)` on its local variables. -/
def busywait_target (begin_ : Timespec) (sec nsec : Int) : Timespec :=
  timespec_sum begin_ { tv_sec := sec, tv_nsec := nsec }

/-- The function `get_elapsed_busywait` of timelib.c, lines 65-93. It returns the
elapsed cycles; the last clock reading is returned as well, for the statements
about it. -/
def get_elapsed_busywait (env : Env) (fuel : Nat) (sec nsec : Int) (w : World) :
    Option (Nat × Timespec × World) :=
  let (begin_, w1) := clock_gettime env w
  let target := busywait_target begin_ sec nsec
  let (start, w2) := get_clocks env w1
  match poll_until env target fuel w2 with
  | none => none
  | some (curr, w3) =>
    let (end_, w4) := get_clocks env w3
    some (sub_u64 end_ start, curr, w4)

/-! ## server.c -/

/-- The conversion `int id = request_id` of a `uint64_t` (two's complement, 32-bit
`int`). -/
def toInt32 (n : Nat) : Int :=
  if n % 2 ^ 32 < 2 ^ 31 then ((n % 2 ^ 32 : Nat) : Int) else ((n % 2 ^ 32 : Nat) : Int) - 2 ^ 32

/-- The exit test of `busy_wait`, server.c line 100. -/
def wait_over (start_time current_time wait_time : Timespec) : Bool :=
  decide (dsub (toSeconds current_time) (toSeconds start_time) ≥ toSeconds wait_time)

/-- The loop `while (1)` of `busy_wait`, server.c lines 98-103. -/
def busy_wait_loop (env : Env) (start_time wait_time : Timespec) : Nat → World → Option World
  | 0, _ => none
  | fuel + 1, w =>
    let (current_time, w1) := clock_gettime env w
    if wait_over start_time current_time wait_time then some w1
    else busy_wait_loop env start_time wait_time fuel w1

/-- The function `busy_wait` of server.c, lines 93-104. -/
def busy_wait (env : Env) (fuel : Nat) (wait_time : Timespec) (w : World) : Option World :=
  let (start_time, w1) := clock_gettime env w
  busy_wait_loop env start_time wait_time fuel w1

/-- The first `recv` of `handle_request`: the byte count and the RequestID read
(the variable stays unset, here 0, when nothing arrives). -/
def recv_request_id (env : Env) (w : World) : Int × Nat × World :=
  match w.stream with
  | [] => (if env.eofErr then -1 else 0, 0, { w with recvCalls := w.recvCalls + 1 })
  | q :: _ => (8, q.id, { w with recvCalls := w.recvCalls + 1 })

/-- The second and third `recv` of `handle_request`: they read the two timespecs of
the request at the head of the stream, which is then consumed. -/
def recv_timespecs (w : World) : Timespec × Timespec × World :=
  match w.stream with
  | [] => (⟨0, 0⟩, ⟨0, 0⟩, { w with recvCalls := w.recvCalls + 2 })
  | q :: rest => (q.sent, q.len, { w with recvCalls := w.recvCalls + 2, stream := rest })

/-- The function `handle_request` of server.c, lines 62-90. -/
def handle_request (env : Env) (fuel : Nat) (_conn_socket : Int) (w : World) : Option World :=
  let (bytes_received, request_id, w1) := recv_request_id env w
  if bytes_received ≤ 0 then some w1
  else
    let (sent_time, request_length, w2) := recv_timespecs w1
    let (receipt_time, w3) := clock_gettime env w2
    match busy_wait env fuel request_length w3 with
    | none => none
    | some w4 =>
      let (completion_time, w5) := clock_gettime env w4
      let w6 := { w5 with responses := w5.responses ++ [request_id] }
      let id := toInt32 request_id
      let sentsec := toSeconds sent_time
      let lensec := toSeconds request_length
      let recsec := toSeconds receipt_time
      let compsec := toSeconds completion_time
      some { w6 with stdout := w6.stdout ++ [OutLine.record ⟨id, sentsec, lensec, recsec, compsec⟩] }

/-- The function `handle_connection` of server.c, lines 48-59: the loop
`while (conn_socket)` followed by `close (conn_socket)`. -/
def handle_connection (env : Env) : Nat → Int → World → Option World
  | 0, _, _ => none
  | fuel + 1, conn_socket, w =>
    if conn_socket ≠ 0 then
      match handle_request env fuel conn_socket w with
      | none => none
      | some w1 => handle_connection env fuel conn_socket w1
    else some { w with closed := w.closed ++ [conn_socket] }

/-- Run `handle_request` `n` times in a row on the same socket. -/
def invocations (env : Env) (fuel : Nat) (conn_socket : Int) : Nat → World → Option World
  | 0, w => some w
  | n + 1, w =>
    match handle_request env fuel conn_socket w with
    | none => none
    | some w1 => invocations env fuel conn_socket n w1

/-! ## clock.c -/

/-- The diagnostic of clock.c, line 44. -/
def invalid_method_msg : String :=
  "Invalid method. Use 's' for sleep or 'b' for busy-wait.\n"

/-- The expression `argv[3][0]`: the first character, or NUL for the empty string. -/
def first_char (s : String) : Char :=
  match s.data with
  | [] => Char.ofNat 0
  | c :: _ => c

/-- The function `main` of clock.c, lines 35-64, given the values `atol` returned
for the first two arguments and the third argument; it returns the exit status. -/
def main (env : Env) (fuel : Nat) (sec nsec : Int) (argv3 : String) (w : World) :
    Option (Int × World) :=
  let method := first_char argv3
  if method ≠ 's' ∧ method ≠ 'b' then
    some (1, { w with stderr := w.stderr ++ [invalid_method_msg] })
  else
    let waited : Option (Nat × World) :=
      if method = 's' then
        let (elapsed, w1) := get_elapsed_sleep env sec nsec w
        some (elapsed, { w1 with stdout := w1.stdout ++ [OutLine.waitMethod "SLEEP"] })
      else
        match get_elapsed_busywait env fuel sec nsec w with
        | none => none
        | some (elapsed, _, w1) =>
          some (elapsed, { w1 with stdout := w1.stdout ++ [OutLine.waitMethod "BUSYWAIT"] })
    match waited with
    | none => none
    | some (elapsed, w2) =>
      some (0, { w2 with stdout := w2.stdout ++ [OutLine.waitTime sec nsec,
        OutLine.clocksElapsed elapsed, OutLine.clockSpeed elapsed sec nsec] })

/-! ## Predicates and sample environments used in the statements -/

/-- An environment whose clock reads (0, 500000000), (0, 999999999), (1, 0), (1, 0), ...
and whose cycle counter advances by 1000 per sample. -/
def envExactSecond : Env :=
  { clock := fun k => if k = 0 then ⟨0, 500000000⟩ else if k = 1 then ⟨0, 999999999⟩ else ⟨1, 0⟩,
    tsc := fun k => 1000 * k,
    eofErr := false }

/-- An environment whose clock reads (1, 0), (2, 0), (3, 0), ... and whose cycle counter
advances by 1000 per sample. -/
def envUptime : Env :=
  { clock := fun k => ⟨k + 1, 0⟩, tsc := fun k => 1000 * k, eofErr := false }

/-- The clock lets every busy wait of the server end: whenever a wait for the delay of
one of the requests starts, some later reading passes the exit test of `busy_wait`. -/
def ClockProgress (env : Env) (reqs : List Request) : Prop :=
  ∀ k, ∀ q ∈ reqs, ∃ j, k < j ∧ wait_over (env.clock k) (env.clock j) q.len = true

/-- The timing records among the lines of standard output. -/
def World.records (w : World) : List TimingRecord :=
  w.stdout.filterMap fun l =>
    match l with
    | OutLine.record r => some r
    | _ => none

/-- An environment whose clock advances by one second per reading and whose cycle
counter advances by 1000 per sample. -/
def envTick : Env :=
  { clock := fun k => ⟨k, 0⟩, tsc := fun k => 1000 * k, eofErr := false }

/-- Three requests whose identifiers and delays are not in ascending order. -/
def reqsUnsorted : List Request :=
  [⟨7, ⟨100, 0⟩, ⟨2, 0⟩⟩, ⟨3, ⟨100, 5⟩, ⟨0, 0⟩⟩, ⟨5, ⟨100, 9⟩, ⟨1, 0⟩⟩]

/-- An environment with 2 ^ 30 seconds on the monotonic clock, whose first four readings
are 0 ns, 10 ns, 130 ns and 140 ns into that second. -/
def envEarly : Env :=
  { clock := fun k =>
      ⟨1073741824, if k = 0 then 0 else if k = 1 then 10 else if k = 2 then 130 else 140⟩,
    tsc := fun k => 1000 * k,
    eofErr := false }

/-- A request with identifier 1 that asks for a delay of 200 ns. -/
def reqShort : Request := ⟨1, ⟨100, 0⟩, ⟨0, 200⟩⟩

/-! ## Facts about timelib.c -/

theorem wrap_long_eq (x : Int) (h1 : -9223372036854775808 ≤ x)
    (h2 : x ≤ 9223372036854775807) : wrap_long x = x := by
  unfold wrap_long
  omega

theorem timespec_sum_eq (a b : Timespec) :
    timespec_sum a b =
      if wrap_long (a.tv_nsec + b.tv_nsec) > NANO_IN_SEC then
        ⟨wrap_long (a.tv_sec +
            wrap_long (b.tv_sec + (wrap_long (a.tv_nsec + b.tv_nsec)).tdiv NANO_IN_SEC)),
          (wrap_long (a.tv_nsec + b.tv_nsec)).tmod NANO_IN_SEC⟩
      else ⟨wrap_long (a.tv_sec + b.tv_sec), wrap_long (a.tv_nsec + b.tv_nsec)⟩ := by
  by_cases h : wrap_long (a.tv_nsec + b.tv_nsec) > NANO_IN_SEC
  · simp [timespec_sum, timespec_add, Mem.two, Mem.set, h]
  · simp [timespec_sum, timespec_add, Mem.two, Mem.set, h]

theorem timespec_add_target (m : Mem) (a b : Addr) (hab : a ≠ b) :
    timespec_add a b m a = timespec_sum (m a) (m b) := by
  have hba : ¬ b = a := fun h => hab h.symm
  rw [timespec_sum_eq]
  by_cases h : wrap_long ((m a).tv_nsec + (m b).tv_nsec) > NANO_IN_SEC
  · simp [timespec_add, Mem.set, h, hba]
  · simp [timespec_add, Mem.set, h, hba]

theorem timespec_add_frame (m : Mem) (a b q : Addr) (hq : q ≠ a) :
    timespec_add a b m q = m q := by
  by_cases h : ((m.set a { m a with
      tv_nsec := wrap_long ((m a).tv_nsec + (m b).tv_nsec) }) a).tv_nsec > NANO_IN_SEC
  · simp only [timespec_add, if_pos h]
    simp [Mem.set, hq]
  · simp only [timespec_add, if_neg h]
    simp [Mem.set, hq]

/-- On normalized operands whose sum fits, `timespec_add` wraps nowhere: it either keeps
the nanosecond sum (at most one second) or carries exactly one second. -/
theorem timespec_sum_cases (a b : Timespec) (ha : a.normalized) (hb : b.normalized)
    (hfit : add_fits a b) :
    (a.tv_nsec + b.tv_nsec ≤ NANO_IN_SEC ∧
      timespec_sum a b = ⟨a.tv_sec + b.tv_sec, a.tv_nsec + b.tv_nsec⟩) ∨
    (a.tv_nsec + b.tv_nsec > NANO_IN_SEC ∧
      timespec_sum a b = ⟨a.tv_sec + b.tv_sec + 1, a.tv_nsec + b.tv_nsec - NANO_IN_SEC⟩) := by
  obtain ⟨ha0, ha1, ha2⟩ := ha
  obtain ⟨hb0, hb1, hb2⟩ := hb
  unfold add_fits LONG_MAX at hfit
  rw [timespec_sum_eq]
  have hw : wrap_long (a.tv_nsec + b.tv_nsec) = a.tv_nsec + b.tv_nsec := by
    unfold NANO_IN_SEC at *
    exact wrap_long_eq _ (by omega) (by omega)
  rw [hw]
  by_cases h : a.tv_nsec + b.tv_nsec > NANO_IN_SEC
  · right
    refine ⟨h, ?_⟩
    rw [if_pos h] at hfit ⊢
    have h0 : (0 : Int) ≤ a.tv_nsec + b.tv_nsec := by omega
    have hN : (0 : Int) ≤ NANO_IN_SEC := by unfold NANO_IN_SEC; omega
    rw [Int.tdiv_eq_ediv h0 hN, Int.tmod_eq_emod h0 hN]
    unfold NANO_IN_SEC at *
    have hd : (a.tv_nsec + b.tv_nsec) / 1000000000 = 1 := by omega
    have hm : (a.tv_nsec + b.tv_nsec) % 1000000000 = a.tv_nsec + b.tv_nsec - 1000000000 := by
      omega
    rw [hd, hm, wrap_long_eq (b.tv_sec + 1) (by omega) (by omega),
      wrap_long_eq (a.tv_sec + (b.tv_sec + 1)) (by omega) (by omega)]
    congr 1
    omega
  · left
    refine ⟨by omega, ?_⟩
    rw [if_neg h] at hfit ⊢
    rw [wrap_long_eq (a.tv_sec + b.tv_sec) (by omega) (by omega)]

/-- C3. `timespec_cmp` is the lexicographic comparison on `(tv_sec, tv_nsec)`: 0 exactly
when both fields agree, 1 exactly when `a` is lexicographically greater, -1 otherwise;
it is reflexive, antisymmetric in sign and transitive, hence a total order. -/
theorem timespec_cmp_lexicographic (a b c : Timespec) :
    (timespec_cmp a b = 0 ↔ (a.tv_sec = b.tv_sec ∧ a.tv_nsec = b.tv_nsec)) ∧
    (timespec_cmp a b = 1 ↔
      (a.tv_sec > b.tv_sec ∨ (a.tv_sec = b.tv_sec ∧ a.tv_nsec > b.tv_nsec))) ∧
    (timespec_cmp a b = -1 ↔
      (¬ (a.tv_sec = b.tv_sec ∧ a.tv_nsec = b.tv_nsec) ∧
       ¬ (a.tv_sec > b.tv_sec ∨ (a.tv_sec = b.tv_sec ∧ a.tv_nsec > b.tv_nsec)))) ∧
    timespec_cmp a a = 0 ∧
    timespec_cmp b a = - timespec_cmp a b ∧
    (timespec_cmp a b ≤ 0 → timespec_cmp b c ≤ 0 → timespec_cmp a c ≤ 0) := by
  unfold timespec_cmp
  refine ⟨?_, ?_, ?_, ?_, ?_, ?_⟩
  · split_ifs <;> simp_all
  · split_ifs <;> simp_all
  · split_ifs <;> simp_all
  · simp
  · split_ifs <;> simp_all <;> omega
  · split_ifs <;> simp_all <;> omega

/-- C3, an instance: (1, 5) is before (2, 0), which is before (2, 7), and so (1, 5) is
before (2, 7). -/
theorem timespec_cmp_lexicographic_witness :
    timespec_cmp ⟨1, 5⟩ ⟨2, 0⟩ ≤ 0 ∧ timespec_cmp ⟨2, 0⟩ ⟨2, 7⟩ ≤ 0 ∧
      timespec_cmp ⟨1, 5⟩ ⟨2, 7⟩ ≤ 0 :=
  ⟨by decide, by decide,
    (timespec_cmp_lexicographic ⟨1, 5⟩ ⟨2, 0⟩ ⟨2, 7⟩).2.2.2.2.2 (by decide) (by decide)⟩

/-- C2, the failing input: adding (0, 500000000) to (0, 500000000), both normalized,
leaves `tv_nsec = 1000000000` in the result, which is not normalized: the test
`a->tv_nsec > NANO_IN_SEC` misses a sum of exactly one second. -/
theorem exact_second_sum_not_normalized :
    (Mem.two ⟨0, 500000000⟩ ⟨0, 500000000⟩ 0).normalized ∧
    (Mem.two ⟨0, 500000000⟩ ⟨0, 500000000⟩ 1).normalized ∧
    timespec_add 0 1 (Mem.two ⟨0, 500000000⟩ ⟨0, 500000000⟩) 0 = ⟨0, 1000000000⟩ ∧
    ¬ (timespec_add 0 1 (Mem.two ⟨0, 500000000⟩ ⟨0, 500000000⟩) 0).normalized := by
  decide

/-- The result of `timespec_add` on normalized operands whose sum fits is normalized
exactly when the nanosecond fields do not sum to one full second. -/
theorem timespec_sum_normalized_iff (a b : Timespec) (ha : a.normalized) (hb : b.normalized)
    (hfit : add_fits a b) :
    (timespec_sum a b).normalized ↔ a.tv_nsec + b.tv_nsec ≠ NANO_IN_SEC := by
  have ha' := ha
  have hb' := hb
  obtain ⟨ha0, ha1, ha2⟩ := ha'
  obtain ⟨hb0, hb1, hb2⟩ := hb'
  rcases timespec_sum_cases a b ha hb hfit with ⟨h, e⟩ | ⟨h, e⟩
  · rw [e]
    simp only [Timespec.normalized]
    constructor
    · rintro ⟨_, _, h3⟩
      omega
    · intro hne
      refine ⟨by omega, by omega, by omega⟩
  · rw [e]
    simp only [Timespec.normalized]
    constructor
    · intro _
      omega
    · intro _
      refine ⟨by omega, by omega, ?_⟩
      unfold NANO_IN_SEC at *
      omega

/-- C4, the counterexample: for the normalized time point (1, 0) and the normalized
duration (LONG_MAX, 0) the seconds of the sum overflow and wrap to -2 ^ 63, and the
original compares After (1), not Before (-1), its sum with a positive duration. -/
theorem overflow_breaks_cmp_add :
    (Mem.two ⟨1, 0⟩ ⟨9223372036854775807, 0⟩ 0).normalized ∧
    (Mem.two ⟨1, 0⟩ ⟨9223372036854775807, 0⟩ 1).normalized ∧
    0 < (Mem.two ⟨1, 0⟩ ⟨9223372036854775807, 0⟩ 1).tv_sec ∧
    timespec_add 0 1 (Mem.two ⟨1, 0⟩ ⟨9223372036854775807, 0⟩) 0 =
      ⟨-9223372036854775808, 0⟩ ∧
    timespec_cmp (Mem.two ⟨1, 0⟩ ⟨9223372036854775807, 0⟩ 0)
      (timespec_add 0 1 (Mem.two ⟨1, 0⟩ ⟨9223372036854775807, 0⟩) 0) = 1 ∧
    ¬ timespec_cmp (Mem.two ⟨1, 0⟩ ⟨9223372036854775807, 0⟩ 0)
      (timespec_add 0 1 (Mem.two ⟨1, 0⟩ ⟨9223372036854775807, 0⟩) 0) = -1 := by
  decide

/-- C4, amended. For a normalized time point `*a` and a normalized duration `*b` held in
distinct objects, whose sum fits into the `long` seconds field, the original `*a`
compares Before (-1) the value of `*a` after `timespec_add (a, b)` whenever the duration
has positive seconds or positive nanoseconds, and Equal (0) when the duration is
(0, 0). -/
theorem timespec_cmp_add (m : Mem) (a b : Addr) (hab : a ≠ b)
    (ha : (m a).normalized) (hb : (m b).normalized) (hfit : add_fits (m a) (m b)) :
    ((0 < (m b).tv_sec ∨ 0 < (m b).tv_nsec) →
      timespec_cmp (m a) (timespec_add a b m a) = -1) ∧
    (m b = ⟨0, 0⟩ → timespec_cmp (m a) (timespec_add a b m a) = 0) := by
  rw [timespec_add_target m a b hab]
  have ha' := ha
  have hb' := hb
  obtain ⟨ha0, ha1, ha2⟩ := ha'
  obtain ⟨hb0, hb1, hb2⟩ := hb'
  constructor
  · intro hpos
    rcases timespec_sum_cases (m a) (m b) ha hb hfit with ⟨h, e⟩ | ⟨h, e⟩
    · rw [e]
      unfold timespec_cmp
      simp only
      split_ifs with h1 h2
      · omega
      · omega
      · rfl
    · rw [e]
      unfold timespec_cmp
      simp only
      split_ifs with h1 h2
      · omega
      · omega
      · rfl
  · intro hz
    rcases timespec_sum_cases (m a) (m b) ha hb hfit with ⟨h, e⟩ | ⟨h, e⟩
    · rw [e, hz]
      unfold timespec_cmp
      simp
    · rw [hz] at h
      simp only at h
      omega

/-- C4, an instance that goes through the exact-second case: (3, 500000000) is Before
its own sum with (0, 500000000). -/
theorem timespec_cmp_add_witness :
    (0 : Addr) ≠ 1 ∧ (Mem.two ⟨3, 500000000⟩ ⟨0, 500000000⟩ 0).normalized ∧
    (Mem.two ⟨3, 500000000⟩ ⟨0, 500000000⟩ 1).normalized ∧
    add_fits (Mem.two ⟨3, 500000000⟩ ⟨0, 500000000⟩ 0)
      (Mem.two ⟨3, 500000000⟩ ⟨0, 500000000⟩ 1) ∧
    timespec_cmp (Mem.two ⟨3, 500000000⟩ ⟨0, 500000000⟩ 0)
      (timespec_add 0 1 (Mem.two ⟨3, 500000000⟩ ⟨0, 500000000⟩) 0) = -1 :=
  ⟨by decide, by decide, by decide, by decide,
    (timespec_cmp_add (Mem.two ⟨3, 500000000⟩ ⟨0, 500000000⟩) 0 1 (by decide) (by decide)
      (by decide) (by decide)).1 (Or.inr (by decide))⟩

/-- C5, the counterexample: for the normalized operands (1, 0) and (LONG_MAX, 0) the
seconds of the sum overflow and wrap to -2 ^ 63, so the total of the updated `*a` is not
the sum of the totals of the operands. -/
theorem overflow_breaks_exact_sum :
    (Mem.two ⟨1, 0⟩ ⟨9223372036854775807, 0⟩ 0).normalized ∧
    (Mem.two ⟨1, 0⟩ ⟨9223372036854775807, 0⟩ 1).normalized ∧
    (timespec_add 0 1 (Mem.two ⟨1, 0⟩ ⟨9223372036854775807, 0⟩) 0).toNs =
      -9223372036854775808000000000 ∧
    (Mem.two ⟨1, 0⟩ ⟨9223372036854775807, 0⟩ 0).toNs +
      (Mem.two ⟨1, 0⟩ ⟨9223372036854775807, 0⟩ 1).toNs = 9223372036854775808000000000 ∧
    ¬ (timespec_add 0 1 (Mem.two ⟨1, 0⟩ ⟨9223372036854775807, 0⟩) 0).toNs =
      (Mem.two ⟨1, 0⟩ ⟨9223372036854775807, 0⟩ 0).toNs +
        (Mem.two ⟨1, 0⟩ ⟨9223372036854775807, 0⟩ 1).toNs := by
  decide

/-- C5, amended. For normalized `*a` and `*b` held in distinct objects, whose sum fits
into the `long` seconds field, `timespec_add (a, b)` preserves the exact total: the
nanoseconds of the updated `*a` are the sum of the nanoseconds of both operands; the
seconds carried out of the nanosecond field are 0 or 1; `*b` is unchanged. -/
theorem timespec_add_exact (m : Mem) (a b : Addr) (hab : a ≠ b)
    (ha : (m a).normalized) (hb : (m b).normalized) (hfit : add_fits (m a) (m b)) :
    (timespec_add a b m a).toNs = (m a).toNs + (m b).toNs ∧
    0 ≤ (timespec_add a b m a).tv_sec - ((m a).tv_sec + (m b).tv_sec) ∧
    (timespec_add a b m a).tv_sec - ((m a).tv_sec + (m b).tv_sec) ≤ 1 ∧
    timespec_add a b m b = m b := by
  have hb' : b ≠ a := fun h => hab h.symm
  rw [timespec_add_frame m a b b hb', timespec_add_target m a b hab]
  rcases timespec_sum_cases (m a) (m b) ha hb hfit with ⟨h, e⟩ | ⟨h, e⟩
  · rw [e]
    simp only [Timespec.toNs]
    refine ⟨by ring, by omega, by omega, trivial⟩
  · rw [e]
    simp only [Timespec.toNs]
    refine ⟨by ring, by omega, by omega, trivial⟩

/-- C5, an instance with a carry: (1, 900000000) plus (2, 300000000) is (4, 200000000). -/
theorem timespec_add_exact_witness :
    (timespec_add 0 1 (Mem.two ⟨1, 900000000⟩ ⟨2, 300000000⟩) 0).toNs = 4200000000 ∧
    timespec_add 0 1 (Mem.two ⟨1, 900000000⟩ ⟨2, 300000000⟩) 1 = ⟨2, 300000000⟩ := by
  have h := timespec_add_exact (Mem.two ⟨1, 900000000⟩ ⟨2, 300000000⟩) 0 1 (by decide)
    (by decide) (by decide) (by decide)
  exact ⟨h.1.trans (by decide), h.2.2.2.trans (by decide)⟩

/-! ### The busy wait of timelib.c -/

theorem timespec_cmp_not_neg (a b : Timespec) :
    ¬ timespec_cmp a b < 0 ↔
      (a.tv_sec > b.tv_sec ∨ (a.tv_sec = b.tv_sec ∧ a.tv_nsec ≥ b.tv_nsec)) := by
  unfold timespec_cmp
  split_ifs with h1 h2
  · simp only [lt_self_iff_false, not_false_eq_true, true_iff]
    omega
  · simp only [Int.reduceLT, not_false_eq_true, true_iff]
    omega
  · simp only [Int.reduceNeg, Int.reduceLT, not_true_eq_false, false_iff]
    omega

/-- When the polling loop exits, it does so at the first reading that is not before
the target, and it has touched nothing but the clock. -/
theorem poll_until_exit (env : Env) (target : Timespec) (fuel : Nat) (w : World)
    (ck : Timespec) (w' : World) (h : poll_until env target fuel w = some (ck, w')) :
    ∃ k, w.clockCalls ≤ k ∧ ck = env.clock k ∧ ¬ timespec_cmp ck target < 0 ∧
      w' = { w with clockCalls := k + 1 } ∧
      ∀ j, w.clockCalls ≤ j → j < k → timespec_cmp (env.clock j) target < 0 := by
  induction fuel generalizing w with
  | zero => simp [poll_until] at h
  | succ n ih =>
    simp only [poll_until, clock_gettime] at h
    split_ifs at h with hc
    · obtain ⟨k, hk, hck, hnot, hw, hall⟩ := ih _ h
      simp only at hk hw hall
      refine ⟨k, by omega, hck, hnot, hw, ?_⟩
      intro j hj1 hj2
      by_cases hj : j = w.clockCalls
      · rw [hj]; exact hc
      · exact hall j (by omega) hj2
    · simp only [Option.some.injEq, Prod.mk.injEq] at h
      obtain ⟨h1, h2⟩ := h
      refine ⟨w.clockCalls, le_refl _, h1.symm, ?_, h2.symm, ?_⟩
      · rw [← h1]; exact hc
      · intro j hj1 hj2; omega

/-- The polling loop exits as soon as the fuel reaches a reading that is not before
the target. -/
theorem poll_until_returns (env : Env) (target : Timespec) (j : Nat)
    (hj : ¬ timespec_cmp (env.clock j) target < 0) (fuel : Nat) (w : World)
    (hw : w.clockCalls ≤ j) (hfuel : j - w.clockCalls < fuel) :
    ∃ ck w', poll_until env target fuel w = some (ck, w') := by
  induction fuel generalizing w with
  | zero => omega
  | succ n ih =>
    simp only [poll_until, clock_gettime]
    split_ifs with hc
    · have hne : w.clockCalls ≠ j := by
        intro e; rw [e] at hc; exact hj hc
      exact ih _ (by simp only; omega) (by simp only; omega)
    · exact ⟨_, _, rfl⟩

/-- A normalized reading that is not before the target of a busy wait lies at least the
whole delay after the reading taken at entry, also when the target kept
`tv_nsec = 1000000000`, provided the target did not overflow. -/
theorem not_before_target (c0 ck : Timespec) (sec nsec : Int) (h0 : c0.normalized)
    (hk : ck.normalized) (hsec : 0 ≤ sec) (hnsec : 0 ≤ nsec ∧ nsec < NANO_IN_SEC)
    (hfit : add_fits c0 ⟨sec, nsec⟩)
    (h : ¬ timespec_cmp ck (busywait_target c0 sec nsec) < 0) :
    ck.toNs ≥ c0.toNs + (sec * NANO_IN_SEC + nsec) := by
  have hd : (Timespec.mk sec nsec).normalized := ⟨hsec, hnsec.1, hnsec.2⟩
  rw [timespec_cmp_not_neg] at h
  unfold busywait_target at h
  obtain ⟨_, hk1, hk2⟩ := hk
  obtain ⟨_, h01, h02⟩ := h0
  simp only [Timespec.toNs]
  rcases timespec_sum_cases c0 ⟨sec, nsec⟩ ⟨‹0 ≤ c0.tv_sec›, h01, h02⟩ hd hfit with ⟨hs, e⟩ | ⟨hs, e⟩ <;>
    rw [e] at h <;> simp only at h hs <;> unfold NANO_IN_SEC at * <;> omega

/-- C1, the counterexample: with the clock at (1, 0) on entry and the normalized delay
(LONG_MAX, 0), the seconds of the target overflow and wrap to -2 ^ 63; the first poll,
(2, 0), is already not before that target, so `get_elapsed_busywait` leaves its loop
one second after entry, long before the requested delay has elapsed. -/
theorem overflow_ends_busywait_early :
    (0 : Int) ≤ 9223372036854775807 ∧ (9223372036854775807 : Int) ≤ LONG_MAX ∧
    (∀ k, (envUptime.clock k).normalized) ∧
    (∀ k, (envUptime.clock k).toNs ≤ (envUptime.clock (k + 1)).toNs) ∧
    busywait_target (envUptime.clock 0) 9223372036854775807 0 = ⟨-9223372036854775808, 0⟩ ∧
    get_elapsed_busywait envUptime 5 9223372036854775807 0 (World.init []) =
      some (1000, ⟨2, 0⟩, { World.init [] with clockCalls := 2, tscCalls := 2 }) ∧
    (⟨2, 0⟩ : Timespec).toNs <
      (envUptime.clock 0).toNs + (9223372036854775807 * NANO_IN_SEC + 0) := by
  refine ⟨by decide, by decide, ?_, ?_, by decide, by decide, by decide⟩
  · intro k
    simp only [envUptime, Timespec.normalized, NANO_IN_SEC]
    omega
  · intro k
    simp only [envUptime, Timespec.toNs, NANO_IN_SEC]
    push_cast
    omega

/-- C1, amended. For a normalized delay and normalized clock readings such that the
reading at entry plus the delay fits into the `long` seconds field, if
`get_elapsed_busywait` leaves its polling loop after the reading `ck`, then `ck` is a
reading taken after the one at entry and lies, in exact nanoseconds, at least the whole
delay after the reading at entry (also when `timespec_add` left
`tv_nsec = 1000000000` in the target). -/
theorem busywait_not_early (env : Env) (fuel : Nat) (sec nsec : Int) (w : World)
    (elapsed : Nat) (ck : Timespec) (w' : World)
    (hsec : 0 ≤ sec) (hnsec : 0 ≤ nsec ∧ nsec < NANO_IN_SEC)
    (hclock : ∀ k, (env.clock k).normalized)
    (hfit : add_fits (env.clock w.clockCalls) ⟨sec, nsec⟩)
    (h : get_elapsed_busywait env fuel sec nsec w = some (elapsed, ck, w')) :
    ∃ k, w.clockCalls < k ∧ ck = env.clock k ∧ w'.clockCalls = k + 1 ∧
      ck.toNs ≥ (env.clock w.clockCalls).toNs + (sec * NANO_IN_SEC + nsec) := by
  simp only [get_elapsed_busywait, clock_gettime, get_clocks] at h
  split at h
  · simp at h
  · rename_i curr w3 hp
    simp only [Option.some.injEq, Prod.mk.injEq] at h
    obtain ⟨_, hck, hw'⟩ := h
    obtain ⟨k, hk, hcurr, hnot, hw3, _⟩ := poll_until_exit _ _ _ _ _ _ hp
    simp only at hk
    subst hck
    refine ⟨k, by omega, hcurr, ?_, ?_⟩
    · rw [← hw', hw3]
    · have hkn : curr.normalized := by rw [hcurr]; exact hclock k
      exact not_before_target _ _ _ _ (hclock _) hkn hsec hnsec hfit hnot

/-- C1, an instance: entry at (0, 500000000) with delay (0, 500000000); the target keeps
`tv_nsec = 1000000000`, the reading (0, 999999999) does not end the loop, the reading
(1, 0) does. -/
theorem busywait_not_early_witness :
    get_elapsed_busywait envExactSecond 5 0 500000000 (World.init []) =
      some (1000, ⟨1, 0⟩,
        { World.init [] with clockCalls := 3, tscCalls := 2 }) ∧
    ∃ k, (World.init []).clockCalls < k ∧ (⟨1, 0⟩ : Timespec) = envExactSecond.clock k ∧
      ({ World.init [] with clockCalls := 3, tscCalls := 2 } : World).clockCalls = k + 1 ∧
      (⟨1, 0⟩ : Timespec).toNs ≥
        (envExactSecond.clock (World.init []).clockCalls).toNs
          + (0 * NANO_IN_SEC + 500000000) :=
  ⟨by decide,
    busywait_not_early envExactSecond 5 0 500000000 (World.init []) 1000 ⟨1, 0⟩
      { World.init [] with clockCalls := 3, tscCalls := 2 } (by decide) (by decide)
      (by
        intro k
        unfold envExactSecond
        simp only
        split_ifs <;> decide)
      (by decide) (by decide)⟩

/-- The busy wait of timelib.c returns once the clock shows a reading that is not
before the target, for every sufficient amount of fuel. -/
theorem get_elapsed_busywait_returns (env : Env) (sec nsec : Int) (w : World) (j : Nat)
    (hj : w.clockCalls < j)
    (hreach : ¬ timespec_cmp (env.clock j)
      (busywait_target (env.clock w.clockCalls) sec nsec) < 0)
    (fuel : Nat) (hfuel : j - w.clockCalls ≤ fuel) :
    ∃ elapsed ck w', get_elapsed_busywait env fuel sec nsec w = some (elapsed, ck, w') := by
  simp only [get_elapsed_busywait, clock_gettime, get_clocks]
  obtain ⟨ck, w3, hp⟩ := poll_until_returns env
    (busywait_target (env.clock w.clockCalls) sec nsec) j hreach fuel
    { w with clockCalls := w.clockCalls + 1, tscCalls := w.tscCalls + 1 }
    (by simp only; omega) (by simp only; omega)
  rw [hp]
  exact ⟨_, _, _, rfl⟩

/-! ## Facts about the double arithmetic -/

theorem two_pow_excess_le (fuel n : Nat) (hn : 1 ≤ n) : 2 ^ excess fuel n ≤ n := by
  induction fuel generalizing n with
  | zero => simpa [excess] using hn
  | succ f ih =>
    simp only [excess]
    split_ifs with h
    · simpa using hn
    · have h2 : 1 ≤ n / 2 := by
        have : 2 ^ 53 ≤ n := by omega
        omega
      have := ih (n / 2) h2
      rw [pow_succ]
      omega

/-- Rounding to 53 bits changes a natural number by less than a factor of two. -/
theorem roundNat53_bounds (n : Nat) : n ≤ 2 * roundNat53 n ∧ roundNat53 n ≤ 2 * n := by
  rcases Nat.eq_zero_or_pos n with h0 | hpos
  · subst h0
    simp [roundNat53, excess]
  · have hP := two_pow_excess_le n n hpos
    have hPpos : 0 < 2 ^ excess n n := Nat.two_pow_pos _
    have hdm := Nat.div_add_mod n (2 ^ excess n n)
    have hr := Nat.mod_lt n hPpos
    have hq : 1 ≤ n / 2 ^ excess n n := (Nat.one_le_div_iff hPpos).2 hP
    have hX : 2 ^ excess n n ≤ 2 ^ excess n n * (n / 2 ^ excess n n) :=
      Nat.le_mul_of_pos_right _ hq
    simp only [roundNat53]
    split_ifs
    · rw [Nat.add_mul, Nat.one_mul, Nat.mul_comm (n / 2 ^ excess n n)]
      omega
    · rw [Nat.mul_comm (n / 2 ^ excess n n)]
      omega

theorem round53_bounds (x : Int) (hx : 0 ≤ x) : x ≤ 2 * round53 x ∧ round53 x ≤ 2 * x := by
  have h := roundNat53_bounds x.natAbs
  have hx' : ¬ x < 0 := by omega
  simp only [round53, if_neg hx']
  have habs : ((x.natAbs : Nat) : Int) = x := Int.natAbs_of_nonneg hx
  omega

theorem round53_nonneg (x : Int) (hx : 0 ≤ x) : 0 ≤ round53 x := by
  have := round53_bounds x hx
  omega

/-- The double for a non-negative whole number of seconds lies within a factor of four
of the exact value. -/
theorem toSeconds_whole_bounds (n : Int) (hn : 0 ≤ n) :
    n * 2 ^ 82 ≤ 4 * toSeconds ⟨n, 0⟩ ∧ toSeconds ⟨n, 0⟩ ≤ 4 * (n * 2 ^ 82) := by
  have h1 := round53_bounds n hn
  have h0 : mul_1e_9 0 = 0 := by decide
  simp only [toSeconds, dadd, long_to_double, h0, add_zero]
  have h2 := round53_bounds (round53 (n : Int) * 2 ^ 82)
    (mul_nonneg (round53_nonneg n hn) (by norm_num))
  norm_num at h2 ⊢
  constructor <;> linarith [h1.1, h1.2, h2.1, h2.2]

/-! ## Facts about server.c -/

/-- The loop of `busy_wait` exits at the first reading that passes its test, whatever
the fuel beyond that point. -/
theorem busy_wait_loop_returns (env : Env) (start_time wait_time : Timespec) (j : Nat)
    (hj : wait_over start_time (env.clock j) wait_time = true) (d : Nat) :
    ∀ w : World, w.clockCalls ≤ j → j - w.clockCalls = d →
      ∃ k, w.clockCalls ≤ k ∧ k ≤ j ∧ wait_over start_time (env.clock k) wait_time = true ∧
        ∀ fuel, j - w.clockCalls < fuel →
          busy_wait_loop env start_time wait_time fuel w = some { w with clockCalls := k + 1 } := by
  induction d with
  | zero =>
    intro w hw hd
    have e : w.clockCalls = j := by omega
    refine ⟨w.clockCalls, le_refl _, hw, by rw [e]; exact hj, ?_⟩
    intro fuel hf
    obtain ⟨f, rfl⟩ : ∃ f, fuel = f + 1 := ⟨fuel - 1, by omega⟩
    simp only [busy_wait_loop, clock_gettime]
    rw [e, hj]
    simp
  | succ d ih =>
    intro w hw hd
    by_cases hnow : wait_over start_time (env.clock w.clockCalls) wait_time = true
    · refine ⟨w.clockCalls, le_refl _, hw, hnow, ?_⟩
      intro fuel hf
      obtain ⟨f, rfl⟩ : ∃ f, fuel = f + 1 := ⟨fuel - 1, by omega⟩
      simp only [busy_wait_loop, clock_gettime]
      rw [hnow]
      simp
    · obtain ⟨k, hk1, hk2, hk3, hk4⟩ := ih { w with clockCalls := w.clockCalls + 1 }
        (by simp only; omega) (by simp only; omega)
      simp only at hk1 hk4
      refine ⟨k, by omega, hk2, hk3, ?_⟩
      intro fuel hf
      obtain ⟨f, rfl⟩ : ∃ f, fuel = f + 1 := ⟨fuel - 1, by omega⟩
      simp only [busy_wait_loop, clock_gettime]
      rw [if_neg hnow]
      exact hk4 f (by omega)

/-- One invocation of `handle_request` on a stream with a request at its head: with
enough fuel it returns, having consumed that request with three reads, sent its
RequestID and printed one record built from its fields. -/
theorem handle_request_serves (env : Env) (conn_socket : Int) (w : World) (q : Request)
    (rest : List Request) (hs : w.stream = q :: rest)
    (hprog : ∃ j, w.clockCalls + 1 < j ∧
      wait_over (env.clock (w.clockCalls + 1)) (env.clock j) q.len = true) :
    ∃ fuel0 k, w.clockCalls + 1 < k ∧ ∀ fuel, fuel0 ≤ fuel →
      handle_request env fuel conn_socket w =
        some { w with
          clockCalls := k + 2, stream := rest, recvCalls := w.recvCalls + 1 + 2,
          responses := w.responses ++ [q.id],
          stdout := w.stdout ++ [OutLine.record ⟨toInt32 q.id, toSeconds q.sent,
            toSeconds q.len, toSeconds (env.clock w.clockCalls), toSeconds (env.clock (k + 1))⟩] } := by
  obtain ⟨j, hj1, hj2⟩ := hprog
  obtain ⟨k, hk1, hk2, hk3, hk4⟩ := busy_wait_loop_returns env (env.clock (w.clockCalls + 1))
    q.len j hj2 (j - (w.clockCalls + 1 + 1))
    { w with recvCalls := w.recvCalls + 1 + 2, stream := rest,
             clockCalls := w.clockCalls + 1 + 1 }
    (by simp only; omega) (by simp only)
  simp only at hk1 hk4
  refine ⟨j + 1, k, by omega, ?_⟩
  intro fuel hf
  have hloop := hk4 fuel (by omega)
  simp only [handle_request, recv_request_id, recv_timespecs, hs, clock_gettime, busy_wait]
  simp only [show ¬ ((8 : Int) ≤ 0) by decide, if_false]
  rw [hloop]

/-- On an ended stream `handle_request` makes its one read of the RequestID, which
reports no bytes, and returns: nothing else is read, sent or printed. -/
theorem handle_request_end_of_stream (env : Env) (fuel : Nat) (conn_socket : Int) (w : World)
    (hs : w.stream = []) :
    handle_request env fuel conn_socket w = some { w with recvCalls := w.recvCalls + 1 } := by
  simp only [handle_request, recv_request_id, hs]
  cases env.eofErr <;> simp

theorem clockProgress_tail (env : Env) (q : Request) (rest : List Request)
    (h : ClockProgress env (q :: rest)) : ClockProgress env rest :=
  fun k r hr => h k r (List.mem_cons_of_mem q hr)

/-- Serving a whole stream: as many invocations as there are requests consume the
stream in order. -/
theorem invocations_serve (env : Env) (conn_socket : Int) (reqs : List Request)
    (hprog : ClockProgress env reqs) :
    ∀ w : World, w.stream = reqs →
      ∃ (fuel0 : Nat) (wN : World) (recs : List TimingRecord),
        (∀ fuel, fuel0 ≤ fuel →
          invocations env fuel conn_socket reqs.length w = some wN) ∧
        wN.stream = [] ∧
        wN.recvCalls = w.recvCalls + 3 * reqs.length ∧
        wN.responses = w.responses ++ reqs.map (fun q => q.id) ∧
        wN.stdout = w.stdout ++ recs.map OutLine.record ∧
        recs.map (fun r => (r.id, r.sentsec, r.lensec)) =
          reqs.map (fun q => (toInt32 q.id, toSeconds q.sent, toSeconds q.len)) := by
  induction reqs with
  | nil =>
    intro w hw
    exact ⟨0, w, [], fun _ _ => rfl, hw, by simp, by simp, by simp, by simp⟩
  | cons q rest ih =>
    intro w hw
    obtain ⟨j, hj1, hj2⟩ := hprog (w.clockCalls + 1) q (List.mem_cons_self q rest)
    obtain ⟨f1, k, _, hreq⟩ := handle_request_serves env conn_socket w q rest hw ⟨j, hj1, hj2⟩
    obtain ⟨f2, wN, recs, hrun, hst, hrc, hresp, hout, hrecs⟩ :=
      ih (clockProgress_tail env q rest hprog)
        { w with
          clockCalls := k + 2, stream := rest, recvCalls := w.recvCalls + 1 + 2,
          responses := w.responses ++ [q.id],
          stdout := w.stdout ++ [OutLine.record ⟨toInt32 q.id, toSeconds q.sent,
            toSeconds q.len, toSeconds (env.clock w.clockCalls),
            toSeconds (env.clock (k + 1))⟩] } rfl
    refine ⟨max f1 f2, wN, (⟨toInt32 q.id, toSeconds q.sent, toSeconds q.len,
      toSeconds (env.clock w.clockCalls), toSeconds (env.clock (k + 1))⟩ : TimingRecord) :: recs,
      ?_, hst, ?_, ?_, ?_, ?_⟩
    · intro fuel hf
      simp only [List.length_cons, invocations]
      rw [hreq fuel (le_trans (le_max_left _ _) hf)]
      exact hrun fuel (le_trans (le_max_right _ _) hf)
    · rw [hrc]
      simp only [List.length_cons]
      omega
    · rw [hresp]
      simp
    · rw [hout]
      simp only [List.map_cons, List.append_assoc, List.singleton_append]
    · simp only [List.map_cons, hrecs]

theorem invocations_succ (env : Env) (fuel : Nat) (conn_socket : Int) (n : Nat) :
    ∀ w : World, invocations env fuel conn_socket (n + 1) w =
      (invocations env fuel conn_socket n w).bind (handle_request env fuel conn_socket) := by
  induction n with
  | zero =>
    intro w
    cases h : handle_request env fuel conn_socket w <;> simp [invocations, h]
  | succ n ih =>
    intro w
    rw [invocations]
    cases h : handle_request env fuel conn_socket w with
    | none => simp [invocations, h]
    | some w1 =>
      simp only
      rw [ih w1]
      conv_rhs => rw [invocations, h]

theorem records_map_record (recs : List TimingRecord) (w : World)
    (h : w.stdout = recs.map OutLine.record) : w.records = recs := by
  unfold World.records
  rw [h]
  induction recs generalizing w with
  | nil => rfl
  | cons r rs ih =>
    simp only [List.map_cons, List.filterMap_cons]
    rw [ih { w with stdout := rs.map OutLine.record } rfl]

/-- A clock that shows whole seconds `0, 1, 2, ...` lets every busy wait for a delay of
at most eight seconds (as a double) end. -/
theorem clockProgress_of_ticks (env : Env) (hclock : ∀ k : Nat, env.clock k = ⟨k, 0⟩)
    (reqs : List Request) (hlen : ∀ q ∈ reqs, toSeconds q.len ≤ 8 * 2 ^ 82) :
    ClockProgress env reqs := by
  intro k q hq
  refine ⟨16 * k + 64, by omega, ?_⟩
  have hk := toSeconds_whole_bounds k (by omega)
  have hj := toSeconds_whole_bounds (16 * (k : Int) + 64) (by omega)
  have hl := hlen q hq
  have e : ((16 * k + 64 : Nat) : Int) = 16 * (k : Int) + 64 := by omega
  rw [hclock, hclock, e]
  simp only [wait_over, dsub, decide_eq_true_eq, ge_iff_le]
  have hdiff : (16 : Int) * 2 ^ 82 ≤
      toSeconds ⟨16 * (k : Int) + 64, 0⟩ - toSeconds ⟨(k : Int), 0⟩ := by
    linarith [hk.2, hj.1]
  have hr := round53_bounds
    (toSeconds ⟨16 * (k : Int) + 64, 0⟩ - toSeconds ⟨(k : Int), 0⟩)
    (le_trans (by norm_num) hdiff)
  linarith [hr.1]

/-- C7. On a stream of N complete requests followed by end-of-stream, and a clock that
lets every busy wait end, N successive invocations of `handle_request` return (for
every sufficient fuel, with one and the same result): they send exactly N responses,
the RequestIDs unchanged and in input order, and print exactly N timing records, the
i-th built from the identifier, SentTimestamp and RequestedDelay of the i-th request,
whatever the delays are; invocation N+1 makes the one read that reports end-of-stream
and nothing else: no further read, no response, no record. -/
theorem fifo_responses_and_records (env : Env) (conn_socket : Int) (reqs : List Request)
    (hprog : ClockProgress env reqs) :
    ∃ (fuel0 : Nat) (wN : World),
      (∀ fuel, fuel0 ≤ fuel →
        invocations env fuel conn_socket reqs.length (World.init reqs) = some wN ∧
        handle_request env fuel conn_socket wN =
          some { wN with recvCalls := wN.recvCalls + 1 } ∧
        invocations env fuel conn_socket (reqs.length + 1) (World.init reqs) =
          some { wN with recvCalls := wN.recvCalls + 1 }) ∧
      wN.stream = [] ∧
      wN.recvCalls = 3 * reqs.length ∧
      wN.responses = reqs.map (fun q => q.id) ∧
      wN.responses.length = reqs.length ∧
      wN.stdout = wN.records.map OutLine.record ∧
      wN.records.length = reqs.length ∧
      wN.records.map (fun r => (r.id, r.sentsec, r.lensec)) =
        reqs.map (fun q => (toInt32 q.id, toSeconds q.sent, toSeconds q.len)) := by
  obtain ⟨fuel0, wN, recs, hrun, hst, hrc, hresp, hout, hrecs⟩ :=
    invocations_serve env conn_socket reqs hprog (World.init reqs) rfl
  have hout' : wN.stdout = recs.map OutLine.record := by
    rw [hout]; simp [World.init]
  have hR : wN.records = recs := records_map_record recs wN hout'
  have hresp' : wN.responses = reqs.map (fun q => q.id) := by
    rw [hresp]; simp [World.init]
  refine ⟨fuel0, wN, ?_, hst, ?_, hresp', ?_, ?_, ?_, ?_⟩
  · intro fuel hf
    have h1 := hrun fuel hf
    have h2 := handle_request_end_of_stream env fuel conn_socket wN hst
    refine ⟨h1, h2, ?_⟩
    rw [invocations_succ, h1]
    exact h2
  · rw [hrc]; simp [World.init]
  · rw [hresp']; simp
  · rw [hR]; exact hout'
  · rw [hR]
    have := congrArg List.length hrecs
    simpa using this
  · rw [hR]; exact hrecs

/-- C7, an instance: three requests with identifiers 7, 3, 5 and delays 2 s, 0 s, 1 s on a
clock that advances one second per reading are answered 7, 3, 5 and recorded in that
order. -/
theorem fifo_responses_and_records_witness :
    ClockProgress envTick reqsUnsorted ∧
    ∃ (fuel0 : Nat) (wN : World),
      (∀ fuel, fuel0 ≤ fuel →
        invocations envTick fuel 4 3 (World.init reqsUnsorted) = some wN ∧
        invocations envTick fuel 4 4 (World.init reqsUnsorted) =
          some { wN with recvCalls := wN.recvCalls + 1 }) ∧
      wN.responses = [7, 3, 5] ∧
      wN.records.map (fun r => r.id) = [7, 3, 5] := by
  have hp : ClockProgress envTick reqsUnsorted :=
    clockProgress_of_ticks envTick (fun _ => rfl) reqsUnsorted (by decide)
  obtain ⟨fuel0, wN, hrun, _, _, hresp, _, _, _, hrecs⟩ :=
    fifo_responses_and_records envTick 4 reqsUnsorted hp
  refine ⟨hp, fuel0, wN, fun fuel hf => ⟨(hrun fuel hf).1, (hrun fuel hf).2.2⟩, hresp, ?_⟩
  have := congrArg (List.map Prod.fst) hrecs
  simpa [reqsUnsorted, toInt32] using this

/-- C6, on every connected socket: for a non-zero descriptor `handle_connection` never
returns, whatever the stream holds and however much fuel it is given. The condition
`while (conn_socket)` never changes, and `handle_request` cannot report the no-request
outcome, so after the peer has closed the loop keeps invoking `handle_request` and
`close` is never reached. -/
theorem handle_connection_never_returns (env : Env) (conn_socket : Int)
    (hsock : conn_socket ≠ 0) (fuel : Nat) :
    ∀ w : World, handle_connection env fuel conn_socket w = none := by
  induction fuel with
  | zero => intro w; rfl
  | succ f ih =>
    intro w
    simp only [handle_connection, if_pos hsock]
    cases handle_request env f conn_socket w with
    | none => rfl
    | some w1 => exact ih w1

/-- C6, the failing input: descriptor 4 and a peer that closes at once. With a thousand
units of fuel the loop is still running; a single `handle_request` on that stream does
return, having only made its read. -/
theorem handle_connection_never_returns_witness :
    (4 : Int) ≠ 0 ∧
    handle_request envTick 1000 4 (World.init []) =
      some { World.init [] with recvCalls := 1 } ∧
    handle_connection envTick 1000 4 (World.init []) = none :=
  ⟨by decide, by decide,
    handle_connection_never_returns envTick 4 (by decide) 1000 (World.init [])⟩

/-- C8, the failing input: the clock reads 2 ^ 30 s plus 0 ns at receipt, 10 ns at the
start of `busy_wait`, 130 ns at its first poll and 140 ns at completion; the request asks
for 200 ns. As doubles the poll minus the start is 2 ^ (-22) s, about 238 ns, so the
exit test of `busy_wait` passes although `timespec_cmp` still says Before; the response
is sent with completion minus receipt equal to 140 ns, less than the 200 ns asked. -/
theorem busy_wait_returns_early :
    (∀ k, k < 4 → (envEarly.clock k).normalized ∧
      (envEarly.clock k).toNs ≤ (envEarly.clock (k + 1)).toNs) ∧
    reqShort.len.normalized ∧
    (handle_request envEarly 8 4 (World.init [reqShort])).map
        (fun w => (w.clockCalls, w.responses, w.records.map (fun r => (r.recsec, r.compsec))))
      = some (4, [1], [(toSeconds (envEarly.clock 0), toSeconds (envEarly.clock 3))]) ∧
    wait_over (envEarly.clock 1) (envEarly.clock 2) reqShort.len = true ∧
    dsub (toSeconds (envEarly.clock 2)) (toSeconds (envEarly.clock 1)) = 2 ^ 60 ∧
    timespec_cmp (envEarly.clock 2) (timespec_sum (envEarly.clock 1) reqShort.len) = -1 ∧
    (envEarly.clock 3).toNs - (envEarly.clock 0).toNs = 140 ∧
    reqShort.len.toNs = 200 := by
  refine ⟨by decide, by decide, by decide, by decide, by decide, by decide, by decide,
    by decide⟩

/-- C9, the failing input: a request with RequestID 4294967297 (2 ^ 32 + 1) is answered
with 4294967297 but its record line starts `R1:`; RequestID 2147483648 (2 ^ 31) gives a
line that starts `R-2147483648:`. The identifier is narrowed by `int id = request_id`
before it is printed with `%d`. -/
theorem record_id_truncated :
    (handle_request envTick 8 4 (World.init [⟨4294967297, ⟨100, 0⟩, ⟨0, 0⟩⟩])).map
        (fun w => (w.responses, w.records.map TimingRecord.line))
      = some ([4294967297], ["R1:100.000000,0.000000,0.000000,3.000000\n"]) ∧
    (handle_request envTick 8 4 (World.init [⟨2147483648, ⟨100, 0⟩, ⟨0, 0⟩⟩])).map
        (fun w => (w.responses, w.records.map TimingRecord.line))
      = some ([2147483648], ["R-2147483648:100.000000,0.000000,0.000000,3.000000\n"]) := by
  refine ⟨by decide, by decide⟩

/-- The identifier printed in the record is the RequestID itself exactly for identifiers
below 2 ^ 31. -/
theorem toInt32_eq_iff (r : Nat) (hr : r < 2 ^ 64) : toInt32 r = (r : Int) ↔ r < 2 ^ 31 := by
  unfold toInt32
  split_ifs with h <;> omega

/-! ## Facts about clock.c -/

/-- The busy wait of timelib.c touches only the clock (at least two readings) and the
cycle counter (two samples). -/
theorem get_elapsed_busywait_world (env : Env) (fuel : Nat) (sec nsec : Int) (w : World)
    (elapsed : Nat) (ck : Timespec) (w1 : World)
    (h : get_elapsed_busywait env fuel sec nsec w = some (elapsed, ck, w1)) :
    ∃ k, w.clockCalls < k ∧
      w1 = { w with clockCalls := k + 1, tscCalls := w.tscCalls + 1 + 1 } := by
  simp only [get_elapsed_busywait, clock_gettime, get_clocks] at h
  split at h
  · simp at h
  · rename_i curr w3 hp
    simp only [Option.some.injEq, Prod.mk.injEq] at h
    obtain ⟨_, _, hw1⟩ := h
    obtain ⟨k, hk, _, _, hw3, _⟩ := poll_until_exit _ _ _ _ _ _ hp
    simp only at hk
    refine ⟨k, by omega, ?_⟩
    rw [← hw1, hw3]

/-- The sleeping wait touches only the cycle counter (two samples) and calls
`nanosleep` once, with the requested time. -/
theorem get_elapsed_sleep_world (env : Env) (sec nsec : Int) (w : World) :
    (get_elapsed_sleep env sec nsec w).2 =
      { w with tscCalls := w.tscCalls + 1 + 1, sleeps := w.sleeps ++ [⟨sec, nsec⟩] } := by
  simp [get_elapsed_sleep, get_clocks]

/-- C10. The utility `main`, given `<seconds> <nanoseconds> <method>`:
if the first character of the method is neither `s` nor `b`, it returns 1 having only
written the invalid-method diagnostic to standard error (no wait, no timing output);
for `s` it returns 0 after exactly one sleeping wait and prints `SLEEP` first;
for `b`, once the clock reaches the target, it returns 0 after exactly one busy wait, no
sleep, and prints `BUSYWAIT` first; and whenever it returns, the status is non-zero
exactly when the method is invalid. -/
theorem main_method_dispatch (env : Env) (sec nsec : Int) (argv3 : String) (w : World) :
    ((first_char argv3 ≠ 's' ∧ first_char argv3 ≠ 'b') →
      ∀ fuel, main env fuel sec nsec argv3 w =
        some (1, { w with stderr := w.stderr ++ [invalid_method_msg] })) ∧
    (first_char argv3 = 's' →
      ∀ fuel, main env fuel sec nsec argv3 w =
        some (0, { w with
          tscCalls := w.tscCalls + 1 + 1, sleeps := w.sleeps ++ [⟨sec, nsec⟩],
          stdout := w.stdout ++ [OutLine.waitMethod "SLEEP", OutLine.waitTime sec nsec,
            OutLine.clocksElapsed (get_elapsed_sleep env sec nsec w).1,
            OutLine.clockSpeed (get_elapsed_sleep env sec nsec w).1 sec nsec] })) ∧
    (first_char argv3 = 'b' →
      ∀ j, w.clockCalls < j →
        ¬ timespec_cmp (env.clock j) (busywait_target (env.clock w.clockCalls) sec nsec) < 0 →
        ∀ fuel, j - w.clockCalls ≤ fuel →
          ∃ elapsed ck k, w.clockCalls < k ∧
            get_elapsed_busywait env fuel sec nsec w =
              some (elapsed, ck, { w with clockCalls := k + 1, tscCalls := w.tscCalls + 1 + 1 }) ∧
            main env fuel sec nsec argv3 w =
              some (0, { w with
                clockCalls := k + 1, tscCalls := w.tscCalls + 1 + 1,
                stdout := w.stdout ++ [OutLine.waitMethod "BUSYWAIT", OutLine.waitTime sec nsec,
                  OutLine.clocksElapsed elapsed, OutLine.clockSpeed elapsed sec nsec] })) ∧
    (∀ fuel code w', main env fuel sec nsec argv3 w = some (code, w') →
      (code ≠ 0 ↔ (first_char argv3 ≠ 's' ∧ first_char argv3 ≠ 'b'))) := by
  refine ⟨?_, ?_, ?_, ?_⟩
  · intro hbad fuel
    simp only [main, if_pos hbad]
  · intro hs fuel
    have hgood : ¬ (first_char argv3 ≠ 's' ∧ first_char argv3 ≠ 'b') := by
      rw [hs]; simp
    simp only [main, if_neg hgood, hs, if_true]
    simp [get_elapsed_sleep, get_clocks]
  · intro hb j hj hreach fuel hfuel
    have hgood : ¬ (first_char argv3 ≠ 's' ∧ first_char argv3 ≠ 'b') := by
      rw [hb]; simp
    have hns : ¬ first_char argv3 = 's' := by rw [hb]; decide
    obtain ⟨elapsed, ck, w1, hbw⟩ :=
      get_elapsed_busywait_returns env sec nsec w j hj hreach fuel hfuel
    obtain ⟨k, hk, hw1⟩ := get_elapsed_busywait_world env fuel sec nsec w elapsed ck w1 hbw
    refine ⟨elapsed, ck, k, hk, by rw [hbw, hw1], ?_⟩
    simp only [main, if_neg hgood, if_neg hns, hbw, hw1, List.append_assoc,
      List.singleton_append]
  · intro fuel code w' h
    by_cases hbad : first_char argv3 ≠ 's' ∧ first_char argv3 ≠ 'b'
    · simp only [main, if_pos hbad, Option.some.injEq, Prod.mk.injEq] at h
      have : code = 1 := h.1.symm
      subst this
      simp [hbad]
    · simp only [main, if_neg hbad] at h
      have hc : code = 0 := by
        split at h
        · simp at h
        · simp only [Option.some.injEq, Prod.mk.injEq] at h
          exact h.1.symm
      subst hc
      simp only [ne_eq, not_true_eq_false, false_iff]
      exact hbad

/-- C10, instances: method `x` gives status 1 and only the diagnostic; method `busy` on
a clock that reaches the target at its third reading gives status 0 after one busy
wait. -/
theorem main_method_dispatch_witness :
    main envExactSecond 0 0 500000000 "x" (World.init []) =
      some (1, { World.init [] with stderr := [invalid_method_msg] }) ∧
    ∃ elapsed ck k, (World.init []).clockCalls < k ∧
      get_elapsed_busywait envExactSecond 3 0 500000000 (World.init []) =
        some (elapsed, ck, { World.init [] with clockCalls := k + 1, tscCalls := 2 }) ∧
      main envExactSecond 3 0 500000000 "busy" (World.init []) =
        some (0, { World.init [] with
          clockCalls := k + 1, tscCalls := 2,
          stdout := [OutLine.waitMethod "BUSYWAIT", OutLine.waitTime 0 500000000,
            OutLine.clocksElapsed elapsed, OutLine.clockSpeed elapsed 0 500000000] }) :=
  ⟨(main_method_dispatch envExactSecond 0 500000000 "x" (World.init [])).1 (by decide) 0,
    (main_method_dispatch envExactSecond 0 500000000 "busy" (World.init [])).2.2.1
      (by decide) 2 (by decide) (by decide) 3 (by decide)⟩

end CS350
